import Mathlib

/-!
Verification of convert_h1_to_h2.py: a Markdown H1-to-H2 rewriter.

The heading transform (convert_h1_to_h2) is modelled over List Char with the
same line splitting, Python string stripping, fence and frontmatter state
tracking as the source.  File-system behaviour (process_file, write_file_atomic,
run_conversion, main) is modelled by explicit state passing over a map from
path strings to byte lists, with the source's encoding fallback list realised
by executable UTF-8 / UTF-8-sig / Latin-1 codecs.
-/

set_option maxHeartbeats 1000000

namespace ConvertH1

/-- Code points treated as whitespace by Python str.strip / str.lstrip with no
argument: ASCII whitespace, the C1 and Unicode space characters. -/
def pyIsSpace (c : Char) : Bool :=
  let n := c.toNat
  decide ((9 ≤ n ∧ n ≤ 13) ∨ (28 ≤ n ∧ n ≤ 32) ∨ n = 0x85 ∨ n = 0xa0 ∨
    n = 0x1680 ∨ (0x2000 ≤ n ∧ n ≤ 0x200a) ∨ n = 0x2028 ∨ n = 0x2029 ∨
    n = 0x202f ∨ n = 0x205f ∨ n = 0x3000)

/-- Python str.lstrip with no argument: drop leading whitespace. -/
def pyLstrip (l : List Char) : List Char := l.dropWhile pyIsSpace

/-- Python str.rstrip with no argument: drop trailing whitespace. -/
def pyRstrip : List Char → List Char
  | [] => []
  | c :: l =>
    match pyRstrip l with
    | [] => if pyIsSpace c then [] else [c]
    | r => c :: r

/-- Python str.strip with no argument: drop whitespace at both ends. -/
def pyStrip (l : List Char) : List Char := pyRstrip (pyLstrip l)

/-- The bare frontmatter delimiter, the characters of the literal compared by
line.strip() == three dashes in the source. -/
def threeDashes : List Char := ['-', '-', '-']

/-- content.split on the newline character, as Python str.split with a
separator: the result is never empty and its elements contain no newline. -/
def splitLines : List Char → List (List Char)
  | [] => [[]]
  | c :: rest =>
    if c = '\n' then [] :: splitLines rest
    else
      match splitLines rest with
      | l :: ls => (c :: l) :: ls
      | [] => [[c]]

/-- Python newline.join over the result lines. -/
def joinLines : List (List Char) → List Char
  | [] => []
  | [l] => l
  | l :: ls => l ++ '\n' :: joinLines ls

/-- The backtick character, written by code point. -/
def backtickChar : Char := Char.ofNat 0x60

/-- The two fence marker families recognised by the scanner. -/
inductive FenceKind where
  | backtick
  | tilde
deriving DecidableEq

/-- The three-character fence marker of a family, the value held by the
source's code_fence_pattern variable. -/
def fenceChars : FenceKind → List Char
  | .backtick => [backtickChar, backtickChar, backtickChar]
  | .tilde => ['~', '~', '~']

/-- Scanner state of convert_h1_to_h2: the in_frontmatter flag, and the
code_fence_pattern that opened the current fenced block (none exactly when the
source's in_code_block flag is false). -/
structure ScanState where
  in_frontmatter : Bool
  code_fence_pattern : Option FenceKind
deriving DecidableEq

/-- The state at the start of the scan: both flags clear. -/
def initState : ScanState := ⟨false, none⟩

/-- Recogniser for the anchored regex of the source, zero-to-budget leading
spaces then hash then one space then the rest: returns the count of leading
spaces and the text after the hash and its single space. -/
def h1MatchAux (budget : Nat) (line : List Char) : Option (Nat × List Char) :=
  match line with
  | '#' :: ' ' :: r => some (0, r)
  | ' ' :: rest =>
    match budget with
    | 0 => none
    | b + 1 => (h1MatchAux b rest).map (fun p => (p.1 + 1, p.2))
  | _ => none

/-- The h1_pattern of the source: at most three leading spaces. -/
def h1Match (line : List Char) : Option (Nat × List Char) := h1MatchAux 3 line

/-- One iteration of the scanning loop of convert_h1_to_h2 for a single line.
The flag first is true exactly for the line at index 0.  Returns the state for
the next line, the emitted line, and the number of conversions performed on
this line (0 or 1). -/
def processLine (first : Bool) (st : ScanState) (line : List Char) :
    ScanState × List Char × Nat :=
  if first = true ∧ pyStrip line = threeDashes then
    (⟨true, st.code_fence_pattern⟩, line, 0)
  else if st.in_frontmatter then
    (if pyStrip line = threeDashes then ⟨false, st.code_fence_pattern⟩ else st,
     line, 0)
  else
    let stripped := pyLstrip line
    match st.code_fence_pattern with
    | none =>
      if List.isPrefixOf (fenceChars .backtick) stripped then
        (⟨st.in_frontmatter, some .backtick⟩, line, 0)
      else if List.isPrefixOf (fenceChars .tilde) stripped then
        (⟨st.in_frontmatter, some .tilde⟩, line, 0)
      else
        match h1Match line with
        | some (n, rest) =>
          (st, List.replicate n ' ' ++ '#' :: '#' :: ' ' :: rest, 1)
        | none => (st, line, 0)
    | some f =>
      (if List.isPrefixOf (fenceChars f) stripped then
        ⟨st.in_frontmatter, none⟩
      else st, line, 0)

/-- The scanning loop of convert_h1_to_h2 over the list of lines, threading the
state and summing the per-line conversion counts. -/
def convertLines (first : Bool) (st : ScanState) :
    List (List Char) → List (List Char) × Nat
  | [] => ([], 0)
  | l :: ls =>
    let r := processLine first st l
    let rest := convertLines false r.1 ls
    (r.2.1 :: rest.1, r.2.2 + rest.2)

/-- convert_h1_to_h2: split the content on newlines, scan with the fresh state,
join with newlines; returns the new content and the replacement count. -/
def convert_h1_to_h2 (content : String) : String × Nat :=
  let r := convertLines true initState (splitLines content.data)
  (String.mk (joinLines r.1), r.2)

/-- The action of the scanner on a single unprotected line: convert a matching
heading-1 line, keep any other line. -/
def convLine (l : List Char) : List Char :=
  match h1Match l with
  | some (k, r) => List.replicate k ' ' ++ '#' :: '#' :: ' ' :: r
  | none => l

/-- The file system as a map from path strings to file contents (byte lists);
none means the path does not exist. -/
def FS : Type := String → Option (List Nat)

/-- Create or overwrite a file. -/
def setFile (fs : FS) (p : String) (bytes : List Nat) : FS :=
  fun q => if q = p then some bytes else fs q

/-- Delete a file (os.unlink). -/
def removeFile (fs : FS) (p : String) : FS :=
  fun q => if q = p then none else fs q

/-- A UTF-8 continuation byte. -/
def contByte (b : Nat) : Bool := decide (0x80 ≤ b ∧ b < 0xc0)

/-- Strict UTF-8 decoding as Python's utf-8 codec: rejects stray continuation
bytes, overlong forms, surrogates and code points beyond the Unicode range. -/
def utf8DecodeAux : List Nat → Option (List Char)
  | [] => some []
  | b :: rest =>
    if b < 0x80 then
      (utf8DecodeAux rest).map (fun cs => Char.ofNat b :: cs)
    else if b < 0xc2 then none
    else if b < 0xe0 then
      match rest with
      | b2 :: rest2 =>
        if contByte b2 then
          (utf8DecodeAux rest2).map
            (fun cs => Char.ofNat ((b - 0xc0) * 0x40 + (b2 - 0x80)) :: cs)
        else none
      | [] => none
    else if b < 0xf0 then
      match rest with
      | b2 :: b3 :: rest3 =>
        if contByte b2 && contByte b3 && decide (b = 0xe0 → 0xa0 ≤ b2) &&
            decide (b = 0xed → b2 < 0xa0) then
          (utf8DecodeAux rest3).map
            (fun cs => Char.ofNat ((b - 0xe0) * 0x1000 + (b2 - 0x80) * 0x40 +
              (b3 - 0x80)) :: cs)
        else none
      | _ => none
    else if b < 0xf5 then
      match rest with
      | b2 :: b3 :: b4 :: rest4 =>
        if contByte b2 && contByte b3 && contByte b4 &&
            decide (b = 0xf0 → 0x90 ≤ b2) && decide (b = 0xf4 → b2 < 0x90) then
          (utf8DecodeAux rest4).map
            (fun cs => Char.ofNat ((b - 0xf0) * 0x40000 + (b2 - 0x80) * 0x1000 +
              (b3 - 0x80) * 0x40 + (b4 - 0x80)) :: cs)
        else none
      | _ => none
    else none

/-- The UTF-8 byte-order mark. -/
def bomBytes : List Nat := [0xef, 0xbb, 0xbf]

/-- Python's utf-8-sig codec: strip a leading byte-order mark when present,
then decode as UTF-8. -/
def utf8SigDecode (bytes : List Nat) : Option (List Char) :=
  if List.isPrefixOf bomBytes bytes then utf8DecodeAux (bytes.drop 3)
  else utf8DecodeAux bytes

/-- Python's latin-1 codec: every byte decodes to the code point of its own
value, so decoding never fails. -/
def latin1Decode (bytes : List Nat) : Option (List Char) :=
  some (bytes.map Char.ofNat)

/-- The three encoding names tried by process_file. -/
inductive PyEncoding where
  | utf8
  | utf8sig
  | latin1
deriving DecidableEq

/-- Decoding a byte list under one of the candidate encodings. -/
def decodeBytes : PyEncoding → List Nat → Option (List Char)
  | .utf8, b => utf8DecodeAux b
  | .utf8sig, b => utf8SigDecode b
  | .latin1, b => latin1Decode b

/-- The ordered encoding list of the source: utf-8, then utf-8-sig, then
latin-1. -/
def encodings : List PyEncoding := [.utf8, .utf8sig, .latin1]

/-- The decode loop of process_file: try each encoding in order and accept the
first that succeeds, remembering which encoding was used. -/
def decodeFirst : List PyEncoding → List Nat → Option (PyEncoding × List Char)
  | [], _ => none
  | e :: es, b =>
    match decodeBytes e b with
    | some s => some (e, s)
    | none => decodeFirst es b

/-- UTF-8 encoding of one character. -/
def utf8EncodeChar (c : Char) : List Nat :=
  let n := c.toNat
  if n < 0x80 then [n]
  else if n < 0x800 then [0xc0 + n / 0x40, 0x80 + n % 0x40]
  else if n < 0x10000 then
    [0xe0 + n / 0x1000, 0x80 + (n / 0x40) % 0x40, 0x80 + n % 0x40]
  else
    [0xf0 + n / 0x40000, 0x80 + (n / 0x1000) % 0x40, 0x80 + (n / 0x40) % 0x40,
     0x80 + n % 0x40]

/-- Encoding a character list under one of the candidate encodings; latin-1
fails (raises UnicodeEncodeError) on a code point above 255, the UTF-8 family
always succeeds. -/
def encodeBytes : PyEncoding → List Char → Option (List Nat)
  | .utf8, s => some (s.map utf8EncodeChar).flatten
  | .utf8sig, s => some (bomBytes ++ (s.map utf8EncodeChar).flatten)
  | .latin1, s =>
    if s.all (fun c => c.toNat < 0x100) then some (s.map Char.toNat) else none

/-- Universal newline translation performed by Python text-mode reads:
carriage-return line-feed and lone carriage-return both become line-feed. -/
def universalNewlines : List Char → List Char
  | [] => []
  | '\r' :: '\n' :: rest => '\n' :: universalNewlines rest
  | '\r' :: rest => '\n' :: universalNewlines rest
  | c :: rest => c :: universalNewlines rest

/-- Result of processing a single file, as the source's ConversionResult. -/
structure ConversionResult where
  file_path : String
  replacements : Nat
  modified : Bool
  error : Option String
deriving DecidableEq

/-- Aggregated summary of the run, as the source's ConversionSummary. -/
structure ConversionSummary where
  files_scanned : Nat
  files_changed : Nat
  total_replacements : Nat
  errors : List String
deriving DecidableEq

/-- The error message of the branch reached when no encoding decodes the
file. -/
def decodeErrorMsg : String := "Could not decode file with supported encodings"

/-- Modelled message of the exception raised when opening the file fails. -/
def readErrorMsg : String := "unable to open file"

/-- Modelled message of the exception raised when encoding the new content
fails during the write. -/
def encodeErrorMsg : String := "unable to encode file content"

/-- Modelled backup location of create_backup: the path arithmetic (relative
path mirroring under the _backups folder, stem and suffix splitting around the
timestamp) is abstracted into one injective-enough string; now is the
timestamp string of the source's datetime.now call. -/
def backupPath (file_path vault_root now : String) : String :=
  vault_root ++ "/_backups/" ++ file_path ++ "_" ++ now

/-- Modelled effect of create_backup: copy the file's current bytes to the
timestamped backup path. -/
def create_backup (fs : FS) (file_path vault_root now : String) : FS :=
  match fs file_path with
  | some bytes => setFile fs (backupPath file_path vault_root now) bytes
  | none => fs

/-- The three points at which write_file_atomic can fail: tempfile.mkstemp
itself, the write into the temporary file, and the atomic replace. -/
inductive WriteStep where
  | mkstemp
  | writeTemp
  | replace
deriving DecidableEq

/-- Small-step model of write_file_atomic with an injected failure point.
temp_path stands for the fresh name produced by tempfile.mkstemp in the
target's directory; partialLen is how many bytes reached the temporary file
when a failure hit during the write.  Returns the file system after the call
and whether the call succeeded (false means the exception propagated to the
caller after the cleanup unlink of the temporary file). -/
def write_file_atomic (fs : FS) (temp_path file_path : String) (bytes : List Nat)
    (failAt : Option WriteStep) (partialLen : Nat) : FS × Bool :=
  match failAt with
  | some .mkstemp => (fs, false)
  | some .writeTemp =>
    (removeFile (setFile fs temp_path (bytes.take partialLen)) temp_path, false)
  | some .replace =>
    (removeFile (setFile fs temp_path bytes) temp_path, false)
  | none =>
    (setFile (removeFile (setFile fs temp_path bytes) temp_path) file_path bytes,
     true)

/-- The fresh temporary name used for a file's atomic write; freshness of the
mkstemp name is a hypothesis where it matters. -/
def tmpName (file_path : String) : String := "." ++ file_path ++ "_.tmp"

/-- process_file modelled over the file-system map: read and decode with the
encoding fallback list (text-mode reads apply universal newline translation),
run the transform, then depending on dry_run and create_backups back up and
atomically write with the same encoding that decoded the file.  Any failure is
returned in the result's error field, as the source catches every exception of
the per-file sequence. -/
def process_file (fs : FS) (file_path vault_root now : String)
    (dry_run create_backups : Bool) : FS × ConversionResult :=
  match fs file_path with
  | none => (fs, ⟨file_path, 0, false, some readErrorMsg⟩)
  | some bytes =>
    match decodeFirst encodings bytes with
    | none => (fs, ⟨file_path, 0, false, some decodeErrorMsg⟩)
    | some (enc, decoded) =>
      let r := convert_h1_to_h2 (String.mk (universalNewlines decoded))
      if r.2 = 0 then (fs, ⟨file_path, 0, false, none⟩)
      else if dry_run then (fs, ⟨file_path, r.2, false, none⟩)
      else
        let fs1 := if create_backups then create_backup fs file_path vault_root now
          else fs
        match encodeBytes enc r.1.data with
        | none => (fs1, ⟨file_path, 0, false, some encodeErrorMsg⟩)
        | some out =>
          ((write_file_atomic fs1 (tmpName file_path) file_path out none 0).1,
           ⟨file_path, r.2, true, none⟩)

/-- The per-file loop of run_conversion, threading the file system and
collecting every ConversionResult in order. -/
def process_all (fs : FS) (files : List String) (vault_root now : String)
    (dry_run create_backups : Bool) : FS × List ConversionResult :=
  match files with
  | [] => (fs, [])
  | p :: ps =>
    let r := process_file fs p vault_root now dry_run create_backups
    let rest := process_all r.1 ps vault_root now dry_run create_backups
    (rest.1, r.2 :: rest.2)

/-- run_conversion: process every discovered file and aggregate the summary
(file discovery is passed in as the sorted list found before the loop). -/
def run_conversion (fs : FS) (files : List String) (vault_root now : String)
    (dry_run create_backups : Bool) : FS × ConversionSummary :=
  let r := process_all fs files vault_root now dry_run create_backups
  (r.1,
   ⟨files.length,
    r.2.countP (fun x => decide (0 < x.replacements)),
    (r.2.map (fun x => x.replacements)).sum,
    r.2.filterMap (fun x => x.error.map (fun e => x.file_path ++ ": " ++ e))⟩)

/-- main modelled from the argument-handling onward: root_exists and
root_is_dir are the two checks on the resolved vault path, md_files is the
discovery result, and the flags mirror the parsed arguments (dry_run is the
negation of the write flag, backups are on unless no_backup).  Returns the
final file system and the exit code. -/
def main (root_exists root_is_dir : Bool) (fs : FS) (vault_path now : String)
    (md_files : List String) (write backup no_backup : Bool) : FS × Nat :=
  if root_exists = false then (fs, 1)
  else if root_is_dir = false then (fs, 1)
  else
    let r := run_conversion fs md_files vault_path now (!write) (backup && !no_backup)
    (r.1, if r.2.errors.isEmpty then 0 else 1)

theorem pyLstrip_cons_of_not_space {c : Char} {l : List Char}
    (h : pyIsSpace c = false) : pyLstrip (c :: l) = c :: l := by
  simp [pyLstrip, List.dropWhile, h]

theorem pyLstrip_replicate_space (k : Nat) (l : List Char) :
    pyLstrip (List.replicate k ' ' ++ l) = pyLstrip l := by
  induction k with
  | zero => simp
  | succ n ih =>
    rw [List.replicate_succ, List.cons_append]
    simpa [pyLstrip, List.dropWhile] using ih

theorem pyRstrip_cons_of_not_space {c : Char} {l : List Char}
    (h : pyIsSpace c = false) : pyRstrip (c :: l) = c :: pyRstrip l := by
  cases h' : pyRstrip l with
  | nil => simp [pyRstrip, h', h]
  | cons a as => simp [pyRstrip, h']

theorem pyStrip_spaces_hash (k : Nat) (xs : List Char) :
    pyStrip (List.replicate k ' ' ++ '#' :: xs) = '#' :: pyRstrip xs := by
  rw [pyStrip, pyLstrip_replicate_space,
    pyLstrip_cons_of_not_space (by decide),
    pyRstrip_cons_of_not_space (by decide)]

theorem pyStrip_spaces_hash_ne_dashes (k : Nat) (xs : List Char) :
    pyStrip (List.replicate k ' ' ++ '#' :: xs) ≠ threeDashes := by
  rw [pyStrip_spaces_hash]
  simp [threeDashes]

theorem h1MatchAux_sound :
    ∀ b line k r, h1MatchAux b line = some (k, r) →
      k ≤ b ∧ line = List.replicate k ' ' ++ '#' :: ' ' :: r := by
  intro b
  induction b with
  | zero =>
    intro line k r h
    unfold h1MatchAux at h
    split at h
    · injection h with h'
      injection h' with h1 h2
      subst h1; subst h2
      simp
    · simp at h
    · simp at h
  | succ b ih =>
    intro line k r h
    unfold h1MatchAux at h
    split at h
    · injection h with h'
      injection h' with h1 h2
      subst h1; subst h2
      simp
    · rw [Option.map_eq_some'] at h
      obtain ⟨p, hp, hpk⟩ := h
      obtain ⟨hb, hform⟩ := ih _ p.1 p.2 hp
      injection hpk with h1 h2
      subst h1; subst h2
      refine ⟨by omega, ?_⟩
      rw [hform, List.replicate_succ]
      simp
    · simp at h

theorem h1MatchAux_complete :
    ∀ k b r, k ≤ b →
      h1MatchAux b (List.replicate k ' ' ++ '#' :: ' ' :: r) = some (k, r) := by
  intro k
  induction k with
  | zero => intro b r _; simp [h1MatchAux]
  | succ n ih =>
    intro b r hb
    cases b with
    | zero => omega
    | succ b' =>
      rw [List.replicate_succ, List.cons_append]
      rw [show h1MatchAux (b' + 1) (' ' :: (List.replicate n ' ' ++ '#' :: ' ' :: r)) =
        (h1MatchAux b' (List.replicate n ' ' ++ '#' :: ' ' :: r)).map
          (fun p => (p.1 + 1, p.2)) from rfl]
      rw [ih b' r (by omega)]
      rfl

theorem h1Match_eq_some {line : List Char} {k : Nat} {r : List Char} :
    h1Match line = some (k, r) ↔
      k ≤ 3 ∧ line = List.replicate k ' ' ++ '#' :: ' ' :: r := by
  constructor
  · exact h1MatchAux_sound 3 line k r
  · rintro ⟨hk, hform⟩
    rw [hform]
    exact h1MatchAux_complete k 3 r hk

theorem h1Match_eq_none {line : List Char}
    (h : ∀ k r, k ≤ 3 → line ≠ List.replicate k ' ' ++ '#' :: ' ' :: r) :
    h1Match line = none := by
  cases hm : h1Match line with
  | none => rfl
  | some p =>
    obtain ⟨hk, hform⟩ := h1MatchAux_sound 3 line p.1 p.2 (by simpa [h1Match] using hm)
    exact absurd hform (h p.1 p.2 hk)

theorem h1MatchAux_hashhash (b k : Nat) (xs : List Char) :
    h1MatchAux b (List.replicate k ' ' ++ '#' :: '#' :: xs) = none := by
  induction k generalizing b with
  | zero => simp [h1MatchAux]
  | succ n ih =>
    rw [List.replicate_succ, List.cons_append]
    cases b with
    | zero => rfl
    | succ b' =>
      rw [show h1MatchAux (b' + 1) (' ' :: (List.replicate n ' ' ++ '#' :: '#' :: xs)) =
        (h1MatchAux b' (List.replicate n ' ' ++ '#' :: '#' :: xs)).map
          (fun p => (p.1 + 1, p.2)) from rfl]
      rw [ih b']
      rfl

theorem fence_not_prefix_hash (f : FenceKind) (xs : List Char) :
    List.isPrefixOf (fenceChars f) ('#' :: xs) = false := by
  cases f <;> simp [fenceChars, List.isPrefixOf, backtickChar]

theorem processLine_heading {st : ScanState} {line : List Char} {k : Nat}
    {r : List Char} (first : Bool) (hfm : st.in_frontmatter = false)
    (hfence : st.code_fence_pattern = none) (hk : k ≤ 3)
    (hline : line = List.replicate k ' ' ++ '#' :: ' ' :: r) :
    processLine first st line =
      (st, List.replicate k ' ' ++ '#' :: '#' :: ' ' :: r, 1) := by
  obtain ⟨fm, fence⟩ := st
  simp only at hfm hfence
  subst hfm; subst hfence; subst hline
  have hc : ¬(first = true ∧
      pyStrip (List.replicate k ' ' ++ '#' :: ' ' :: r) = threeDashes) := by
    rintro ⟨h1, h2⟩
    exact pyStrip_spaces_hash_ne_dashes k (' ' :: r) h2
  have hl : pyLstrip (List.replicate k ' ' ++ '#' :: ' ' :: r) = '#' :: ' ' :: r := by
    rw [pyLstrip_replicate_space, pyLstrip_cons_of_not_space (by decide)]
  have hm : h1Match (List.replicate k ' ' ++ '#' :: ' ' :: r) = some (k, r) :=
    h1MatchAux_complete k 3 r hk
  simp [processLine, hc, hl, hm, fence_not_prefix_hash]

theorem processLine_nonmatch {st : ScanState} {line : List Char} (first : Bool)
    (hfm : st.in_frontmatter = false) (hfence : st.code_fence_pattern = none)
    (hnm : h1Match line = none) :
    (processLine first st line).2.1 = line ∧ (processLine first st line).2.2 = 0 := by
  obtain ⟨fm, fence⟩ := st
  simp only at hfm hfence
  subst hfm; subst hfence
  by_cases hc : first = true ∧ pyStrip line = threeDashes
  · simp [processLine, hc]
  · simp only [processLine, if_neg hc]
    split_ifs <;> simp [hnm]

/-- C1: at every line index, first or not, outside frontmatter and outside any
fenced block, a line made of at most three leading spaces, a single hash and
exactly one space is re-emitted with the hash doubled and the spaces and
trailing text kept verbatim, counting one conversion (such a line can never be
the frontmatter delimiter, so this holds at index 0 too); every line not of
that shape (hash followed by a non-space, two or more hashes, four or more
leading spaces, ...) is emitted unchanged and counts zero. -/
theorem convert_heading_line_spec (st : ScanState) (line : List Char)
    (first : Bool) (hfm : st.in_frontmatter = false)
    (hfence : st.code_fence_pattern = none) :
    (∀ k r, k ≤ 3 → line = List.replicate k ' ' ++ '#' :: ' ' :: r →
      processLine first st line =
        (st, List.replicate k ' ' ++ '#' :: '#' :: ' ' :: r, 1)) ∧
    ((∀ k r, k ≤ 3 → line ≠ List.replicate k ' ' ++ '#' :: ' ' :: r) →
      (processLine first st line).2.1 = line ∧ (processLine first st line).2.2 = 0) :=
  ⟨fun _ _ hk hl => processLine_heading first hfm hfence hk hl,
   fun h => processLine_nonmatch first hfm hfence (h1Match_eq_none h)⟩

/-- Concrete instance of the C1 theorem on the line hash-space-T at line
index 0. -/
theorem convert_heading_line_spec_witness :
    initState.in_frontmatter = false ∧ initState.code_fence_pattern = none ∧
    processLine true initState ['#', ' ', 'T'] = (initState, ['#', '#', ' ', 'T'], 1) :=
  ⟨rfl, rfl,
   (convert_heading_line_spec initState ['#', ' ', 'T'] true rfl rfl).1 0 ['T']
     (by decide) rfl⟩

/-- C2: outside frontmatter, with no fence open, a line whose lstripped content
begins with the backtick marker opens a backtick fence, and one beginning with
the tilde marker (and not the backtick marker) opens a tilde fence, the line
itself being emitted unchanged and uncounted; while a fence is open every line
is emitted unchanged and uncounted, and the fence closes exactly when the
lstripped content begins with the marker family that opened it.  In
convertLines the flag first is true only for line index 0, where a bare
three-dash line would instead open frontmatter, hence the hypothesis. -/
theorem fence_tracking_spec (st : ScanState) (line : List Char) (first : Bool)
    (hfm : st.in_frontmatter = false)
    (hnotfm : first = true → pyStrip line ≠ threeDashes) :
    (st.code_fence_pattern = none →
      (List.isPrefixOf (fenceChars .backtick) (pyLstrip line) = true →
        processLine first st line = (⟨false, some .backtick⟩, line, 0)) ∧
      (List.isPrefixOf (fenceChars .backtick) (pyLstrip line) = false →
        List.isPrefixOf (fenceChars .tilde) (pyLstrip line) = true →
        processLine first st line = (⟨false, some .tilde⟩, line, 0))) ∧
    (∀ f, st.code_fence_pattern = some f →
      processLine first st line =
        (⟨false, if List.isPrefixOf (fenceChars f) (pyLstrip line) then none
          else some f⟩, line, 0)) := by
  obtain ⟨fm, fence⟩ := st
  simp only at hfm
  subst hfm
  have hc : ¬(first = true ∧ pyStrip line = threeDashes) := by
    rintro ⟨h1, h2⟩
    exact hnotfm h1 h2
  refine ⟨?_, ?_⟩
  · intro hfence
    simp only at hfence
    subst hfence
    constructor
    · intro hb
      simp [processLine, hc, hb]
    · intro hb ht
      simp [processLine, hc, hb, ht]
  · intro f hfence
    simp only at hfence
    subst hfence
    simp only [processLine, if_neg hc]
    split_ifs <;> simp_all

/-- Concrete instance of the C2 theorem: a bare backtick fence line opens a
backtick fence and is emitted unchanged. -/
theorem fence_tracking_spec_witness :
    initState.in_frontmatter = false ∧
    (false = true → pyStrip [backtickChar, backtickChar, backtickChar] ≠ threeDashes) ∧
    initState.code_fence_pattern = none ∧
    List.isPrefixOf (fenceChars .backtick)
      (pyLstrip [backtickChar, backtickChar, backtickChar]) = true ∧
    processLine false initState [backtickChar, backtickChar, backtickChar] =
      (⟨false, some .backtick⟩, [backtickChar, backtickChar, backtickChar], 0) :=
  ⟨rfl, by decide, rfl, by decide,
   ((fence_tracking_spec initState [backtickChar, backtickChar, backtickChar]
     false rfl (by decide)).1 rfl).1 (by decide)⟩

/-- C3: the scanner enters frontmatter state exactly on the line with the
first flag set (index 0 in convertLines) whose stripped content is the bare
three-dash delimiter, emitting that line unchanged; while in frontmatter state
every line is emitted unchanged and uncounted, and the state is exited exactly
on the next line whose stripped content is the bare delimiter, that closing
line also being emitted unchanged and never scanned for headings. -/
theorem frontmatter_tracking_spec (st : ScanState) (line : List Char) (first : Bool) :
    (st.in_frontmatter = false →
      ((processLine first st line).1.in_frontmatter = true ↔
        first = true ∧ pyStrip line = threeDashes)) ∧
    (first = true → pyStrip line = threeDashes →
      processLine first st line = (⟨true, st.code_fence_pattern⟩, line, 0)) ∧
    (st.in_frontmatter = true → ¬(first = true ∧ pyStrip line = threeDashes) →
      processLine first st line =
        ((if pyStrip line = threeDashes then ⟨false, st.code_fence_pattern⟩ else st),
         line, 0)) := by
  obtain ⟨fm, fence⟩ := st
  refine ⟨?_, ?_, ?_⟩
  · intro hfm
    simp only at hfm
    subst hfm
    constructor
    · intro h
      by_contra hc
      rw [processLine, if_neg hc] at h
      simp only [Bool.false_eq_true, if_false] at h
      revert h
      cases fence with
      | none =>
        simp only
        split_ifs <;> simp
        cases hm : h1Match line with
        | none => simp [hm]
        | some p => obtain ⟨k, r⟩ := p; simp [hm]
      | some f =>
        simp only
        split_ifs <;> simp
    · rintro ⟨h1, h2⟩
      simp [processLine, h1, h2]
  · intro h1 h2
    simp [processLine, h1, h2]
  · intro hfm hc
    simp only at hfm
    subst hfm
    simp [processLine, hc]

/-- Concrete instance of the C3 theorem: a bare three-dash line at index 0
opens frontmatter and is emitted unchanged. -/
theorem frontmatter_tracking_spec_witness :
    pyStrip ['-', '-', '-'] = threeDashes ∧
    processLine true initState ['-', '-', '-'] = (⟨true, none⟩, ['-', '-', '-'], 0) :=
  ⟨by decide,
   (frontmatter_tracking_spec initState ['-', '-', '-'] true).2.1 rfl (by decide)⟩

theorem processLine_replay (first : Bool) (st : ScanState) (line : List Char) :
    processLine first st ((processLine first st line).2.1) =
      ((processLine first st line).1, (processLine first st line).2.1, 0) := by
  obtain ⟨fm, fence⟩ := st
  by_cases hc : first = true ∧ pyStrip line = threeDashes
  · simp [processLine, hc]
  · cases fm with
    | true =>
      simp only [processLine, if_neg hc]
      split_ifs <;> simp
    | false =>
      cases fence with
      | some f =>
        simp [processLine, hc]
      | none =>
        by_cases hb : List.isPrefixOf (fenceChars .backtick) (pyLstrip line) = true
        · simp [processLine, hc, hb]
        · by_cases ht : List.isPrefixOf (fenceChars .tilde) (pyLstrip line) = true
          · simp [processLine, hc, hb, ht]
          · cases hm : h1Match line with
            | none => simp [processLine, hc, hb, ht, hm]
            | some p =>
              obtain ⟨k, r⟩ := p
              obtain ⟨hk, hform⟩ := h1MatchAux_sound 3 line k r hm
              have hc' : ¬(first = true ∧
                  pyStrip (List.replicate k ' ' ++ '#' :: '#' :: ' ' :: r) = threeDashes) := by
                rintro ⟨h1, h2⟩
                exact pyStrip_spaces_hash_ne_dashes k ('#' :: ' ' :: r) h2
              have hl' : pyLstrip (List.replicate k ' ' ++ '#' :: '#' :: ' ' :: r) =
                  '#' :: '#' :: ' ' :: r := by
                rw [pyLstrip_replicate_space, pyLstrip_cons_of_not_space (by decide)]
              have hm' : h1Match (List.replicate k ' ' ++ '#' :: '#' :: ' ' :: r) = none :=
                h1MatchAux_hashhash 3 k (' ' :: r)
              simp [processLine, hc, hb, ht, hm, hc', hl', hm', fence_not_prefix_hash]

theorem convertLines_replay (first : Bool) (st : ScanState) (ls : List (List Char)) :
    convertLines first st (convertLines first st ls).1 = ((convertLines first st ls).1, 0) := by
  induction ls generalizing first st with
  | nil => rfl
  | cons l ls ih =>
    show convertLines first st ((processLine first st l).2.1 ::
      (convertLines false (processLine first st l).1 ls).1) = _
    simp only [convertLines, processLine_replay first st l,
      ih false (processLine first st l).1]

theorem splitLines_ne_nil (cs : List Char) : splitLines cs ≠ [] := by
  cases cs with
  | nil => simp [splitLines]
  | cons c rest =>
    simp only [splitLines]
    split_ifs
    · simp
    · cases h : splitLines rest <;> simp

theorem splitLines_no_newline : ∀ (cs : List Char) (l : List Char),
    l ∈ splitLines cs → ('\n' : Char) ∉ l := by
  intro cs
  induction cs with
  | nil =>
    intro l hl
    simp [splitLines] at hl
    subst hl
    simp
  | cons c rest ih =>
    intro l hl
    simp only [splitLines] at hl
    by_cases hc : c = '\n'
    · rw [if_pos hc] at hl
      rcases List.mem_cons.mp hl with h | h
      · subst h; simp
      · exact ih l h
    · rw [if_neg hc] at hl
      cases hsp : splitLines rest with
      | nil => exact absurd hsp (splitLines_ne_nil rest)
      | cons hd tl =>
        rw [hsp] at hl
        rcases List.mem_cons.mp hl with h | h
        · subst h
          intro hmem
          rcases List.mem_cons.mp hmem with h' | h'
          · exact hc h'.symm
          · exact ih hd (by rw [hsp]; exact List.mem_cons_self hd tl) h'
        · exact ih l (by rw [hsp]; exact List.mem_cons.mpr (Or.inr h))

theorem splitLines_of_no_newline : ∀ l : List Char, ('\n' : Char) ∉ l →
    splitLines l = [l] := by
  intro l
  induction l with
  | nil => intro _; rfl
  | cons c rest ih =>
    intro h
    have hc : c ≠ '\n' := by
      rintro rfl
      exact h (List.mem_cons_self _ _)
    have hrest : ('\n' : Char) ∉ rest := fun hm => h (List.mem_cons.mpr (Or.inr hm))
    simp only [splitLines, if_neg hc, ih hrest]

theorem splitLines_append_newline : ∀ l rest : List Char, ('\n' : Char) ∉ l →
    splitLines (l ++ '\n' :: rest) = l :: splitLines rest := by
  intro l
  induction l with
  | nil => intro rest _; simp [splitLines]
  | cons c t ih =>
    intro rest h
    have hc : c ≠ '\n' := by
      rintro rfl
      exact h (List.mem_cons_self _ _)
    have ht : ('\n' : Char) ∉ t := fun hm => h (List.mem_cons.mpr (Or.inr hm))
    rw [List.cons_append]
    simp only [splitLines, if_neg hc, ih rest ht]

theorem splitLines_joinLines : ∀ ls : List (List Char), ls ≠ [] →
    (∀ l ∈ ls, ('\n' : Char) ∉ l) → splitLines (joinLines ls) = ls := by
  intro ls
  induction ls with
  | nil => intro h; exact absurd rfl h
  | cons l ls ih =>
    intro _ hnl
    cases ls with
    | nil =>
      show splitLines (joinLines [l]) = [l]
      exact splitLines_of_no_newline l (hnl l (List.mem_cons_self _ _))
    | cons l2 ls2 =>
      rw [show joinLines (l :: l2 :: ls2) = l ++ '\n' :: joinLines (l2 :: ls2) from rfl]
      rw [splitLines_append_newline l _ (hnl l (List.mem_cons_self _ _))]
      rw [ih (by simp) (fun x hx => hnl x (List.mem_cons.mpr (Or.inr hx)))]

theorem processLine_no_newline (first : Bool) (st : ScanState) (line : List Char)
    (h : ('\n' : Char) ∉ line) :
    ('\n' : Char) ∉ (processLine first st line).2.1 := by
  obtain ⟨fm, fence⟩ := st
  by_cases hc : first = true ∧ pyStrip line = threeDashes
  · simpa [processLine, hc] using h
  · cases fm with
    | true =>
      simp only [processLine, if_neg hc]
      split_ifs <;> simpa using h
    | false =>
      cases fence with
      | some f =>
        simp only [processLine, if_neg hc]
        split_ifs <;> simpa using h
      | none =>
        cases hm : h1Match line with
        | none =>
          simp only [processLine, if_neg hc]
          split_ifs <;> simpa [hm] using h
        | some p =>
          obtain ⟨k, r⟩ := p
          obtain ⟨hk, hform⟩ := h1MatchAux_sound 3 line k r hm
          have hr : ('\n' : Char) ∉ r := by
            intro hmem
            exact h (by
              rw [hform]
              exact List.mem_append.mpr (Or.inr (by simp [hmem])))
          have d1 : ('\n' : Char) ≠ '#' := by decide
          have d2 : ('\n' : Char) ≠ ' ' := by decide
          simp only [processLine, if_neg hc]
          split_ifs <;>
            simp [hm, List.mem_append, List.mem_replicate, hr, d1, d2, h]

theorem convertLines_no_newline (first : Bool) (st : ScanState)
    (ls : List (List Char)) (h : ∀ l ∈ ls, ('\n' : Char) ∉ l) :
    ∀ l ∈ (convertLines first st ls).1, ('\n' : Char) ∉ l := by
  induction ls generalizing first st with
  | nil => simp [convertLines]
  | cons x xs ih =>
    intro l hl
    simp only [convertLines] at hl
    rcases List.mem_cons.mp hl with h1 | h1
    · subst h1
      exact processLine_no_newline _ _ _ (h x (List.mem_cons_self _ _))
    · exact ih false _ (fun y hy => h y (List.mem_cons.mpr (Or.inr hy))) l h1

theorem convertLines_ne_nil (first : Bool) (st : ScanState)
    (ls : List (List Char)) (h : ls ≠ []) : (convertLines first st ls).1 ≠ [] := by
  cases ls with
  | nil => exact absurd rfl h
  | cons x xs => simp [convertLines]

/-- C4: the transform is idempotent: applying convert_h1_to_h2 to its own
output performs zero further conversions and leaves the content unchanged. -/
theorem convert_h1_to_h2_idempotent (s s' : String) (n : Nat)
    (h : convert_h1_to_h2 s = (s', n)) : convert_h1_to_h2 s' = (s', 0) := by
  have hs' : s' = String.mk (joinLines (convertLines true initState (splitLines s.data)).1) := by
    have h1 := congrArg Prod.fst h
    simpa [convert_h1_to_h2] using h1.symm
  have hne : (convertLines true initState (splitLines s.data)).1 ≠ [] :=
    convertLines_ne_nil true initState _ (splitLines_ne_nil s.data)
  have hnl : ∀ l ∈ (convertLines true initState (splitLines s.data)).1, ('\n' : Char) ∉ l :=
    convertLines_no_newline true initState _ (fun l hl => splitLines_no_newline s.data l hl)
  have hsplit : splitLines (String.mk (joinLines
      (convertLines true initState (splitLines s.data)).1)).data =
      (convertLines true initState (splitLines s.data)).1 := by
    show splitLines (joinLines (convertLines true initState (splitLines s.data)).1) = _
    exact splitLines_joinLines _ hne hnl
  rw [hs']
  simp only [convert_h1_to_h2, hsplit, convertLines_replay]

/-- Concrete instance of the C4 theorem: one pass converts, the second pass is
the identity with zero conversions. -/
theorem convert_h1_to_h2_idempotent_witness :
    convert_h1_to_h2 "# a" = ("## a", 1) ∧ convert_h1_to_h2 "## a" = ("## a", 0) :=
  ⟨by decide, convert_h1_to_h2_idempotent "# a" "## a" 1 (by decide)⟩

theorem processLine_plain (first : Bool) (l : List Char)
    (hstrip : first = true → pyStrip l ≠ threeDashes)
    (hb : List.isPrefixOf (fenceChars .backtick) (pyLstrip l) = false)
    (ht : List.isPrefixOf (fenceChars .tilde) (pyLstrip l) = false) :
    processLine first initState l =
      (initState, convLine l, if (h1Match l).isSome then 1 else 0) := by
  have hc : ¬(first = true ∧ pyStrip l = threeDashes) := by
    rintro ⟨h1, h2⟩
    exact hstrip h1 h2
  cases hm : h1Match l with
  | none => simp [processLine, initState, hc, hb, ht, hm, convLine]
  | some p =>
    obtain ⟨k, r⟩ := p
    simp [processLine, initState, hc, hb, ht, hm, convLine]

theorem convertLines_no_protected (ls : List (List Char))
    (hfence : ∀ l ∈ ls,
      List.isPrefixOf (fenceChars .backtick) (pyLstrip l) = false ∧
      List.isPrefixOf (fenceChars .tilde) (pyLstrip l) = false) :
    convertLines false initState ls =
      (ls.map convLine, ls.countP (fun l => (h1Match l).isSome)) := by
  induction ls with
  | nil => rfl
  | cons x xs ih =>
    obtain ⟨hb, ht⟩ := hfence x (List.mem_cons_self _ _)
    simp only [convertLines, processLine_plain false x (by simp) hb ht,
      ih (fun y hy => hfence y (List.mem_cons.mpr (Or.inr hy))), List.map_cons,
      List.countP_cons, Prod.mk.injEq]
    exact ⟨trivial, by omega⟩

/-- C5 as stated is refuted at the input of a heading indented by two spaces:
it has no frontmatter, no fence, and exactly one line matching the heading-1
pattern, and the transform reports one conversion, but the output has zero
lines beginning with two hashes (the converted line begins with its preserved
leading spaces), not one. -/
theorem roundtrip_hash_count_refuted :
    pyStrip ((splitLines ("  # x").data).headI) ≠ threeDashes ∧
    (∀ l ∈ splitLines ("  # x").data,
      List.isPrefixOf (fenceChars .backtick) (pyLstrip l) = false ∧
      List.isPrefixOf (fenceChars .tilde) (pyLstrip l) = false) ∧
    (splitLines ("  # x").data).countP (fun l => (h1Match l).isSome) = 1 ∧
    (convert_h1_to_h2 "  # x").2 = 1 ∧
    ((splitLines (convert_h1_to_h2 "  # x").1.data).countP
      (fun l => List.isPrefixOf ['#', '#'] l)) = 0 := by
  decide

/-- C5 amended: for an input with no frontmatter opener and no fence line, the
transform reports exactly the number N of lines matching the heading-1
pattern, and the output is the input with exactly the matching lines replaced
in position by their converted form (leading spaces, two hashes, one space,
the same trailing text) and every other line unchanged. -/
theorem roundtrip_positional_conversion (content : String)
    (hfm : pyStrip ((splitLines content.data).headI) ≠ threeDashes)
    (hfence : ∀ l ∈ splitLines content.data,
      List.isPrefixOf (fenceChars .backtick) (pyLstrip l) = false ∧
      List.isPrefixOf (fenceChars .tilde) (pyLstrip l) = false) :
    convert_h1_to_h2 content =
      (String.mk (joinLines ((splitLines content.data).map convLine)),
       (splitLines content.data).countP (fun l => (h1Match l).isSome)) := by
  cases hsp : splitLines content.data with
  | nil => exact absurd hsp (splitLines_ne_nil content.data)
  | cons l0 rest =>
    rw [hsp] at hfm hfence
    simp only [List.headI] at hfm
    obtain ⟨hb0, ht0⟩ := hfence l0 (List.mem_cons_self _ _)
    simp only [convert_h1_to_h2, hsp, convertLines,
      processLine_plain true l0 (fun _ => hfm) hb0 ht0,
      convertLines_no_protected rest
        (fun y hy => hfence y (List.mem_cons.mpr (Or.inr hy))),
      List.map_cons, List.countP_cons, Prod.mk.injEq]
    exact ⟨trivial, by omega⟩

/-- Concrete instance of the amended C5 theorem. -/
theorem roundtrip_positional_conversion_witness :
    pyStrip ((splitLines ("# a\nq").data).headI) ≠ threeDashes ∧
    (∀ l ∈ splitLines ("# a\nq").data,
      List.isPrefixOf (fenceChars .backtick) (pyLstrip l) = false ∧
      List.isPrefixOf (fenceChars .tilde) (pyLstrip l) = false) ∧
    convert_h1_to_h2 "# a\nq" =
      (String.mk (joinLines ((splitLines ("# a\nq").data).map convLine)),
       (splitLines ("# a\nq").data).countP (fun l => (h1Match l).isSome)) :=
  ⟨by decide, by decide, roundtrip_positional_conversion "# a\nq" (by decide) (by decide)⟩

theorem removeFile_setFile_self (fs : FS) (p : String) (bytes : List Nat)
    (h : fs p = none) : removeFile (setFile fs p bytes) p = fs := by
  funext q
  by_cases hq : q = p
  · subst hq
    simp [removeFile, setFile, h]
  · simp [removeFile, setFile, hq]

/-- C6: with dry_run = true, process_file returns the file system exactly as
it was (no write, no backup, no temporary file), reports modified = false, and
when the file exists reports the would-be conversion count of the decoded
content (zero when the file cannot be read or decoded). -/
theorem process_file_dry_run_frame (fs : FS) (fp vr now : String) (cb : Bool) :
    process_file fs fp vr now true cb = (fs,
      match fs fp with
      | none => ⟨fp, 0, false, some readErrorMsg⟩
      | some bytes =>
        match decodeFirst encodings bytes with
        | none => ⟨fp, 0, false, some decodeErrorMsg⟩
        | some (_, decoded) =>
          ⟨fp, (convert_h1_to_h2 (String.mk (universalNewlines decoded))).2,
           false, none⟩) := by
  cases hr : fs fp with
  | none => simp [process_file, hr]
  | some bytes =>
    cases hd : decodeFirst encodings bytes with
    | none => simp [process_file, hr, hd]
    | some p =>
      obtain ⟨enc, decoded⟩ := p
      simp only [process_file, hr, hd]
      by_cases hz : (convert_h1_to_h2 (String.mk (universalNewlines decoded))).2 = 0
      · simp [hz]
      · simp [hz]

/-- C7: write_file_atomic with a fresh temporary name either succeeds, leaving
the target holding exactly the full new content and every other path
(including the temporary path) exactly as before, or fails at some step,
removing the temporary file and leaving the whole file system exactly as
before the call; in all cases the target holds either its old content or the
full new content, never a mixture. -/
theorem write_file_atomic_old_or_new (fs : FS) (tmp fp : String)
    (bytes : List Nat) (failAt : Option WriteStep) (plen : Nat)
    (hfresh : fs tmp = none) (hne : tmp ≠ fp) :
    ((write_file_atomic fs tmp fp bytes failAt plen).2 = false →
      (write_file_atomic fs tmp fp bytes failAt plen).1 = fs) ∧
    ((write_file_atomic fs tmp fp bytes failAt plen).2 = true →
      (write_file_atomic fs tmp fp bytes failAt plen).1 fp = some bytes ∧
      ∀ q, q ≠ fp → (write_file_atomic fs tmp fp bytes failAt plen).1 q = fs q) ∧
    ((write_file_atomic fs tmp fp bytes failAt plen).1 fp = fs fp ∨
      (write_file_atomic fs tmp fp bytes failAt plen).1 fp = some bytes) ∧
    ((write_file_atomic fs tmp fp bytes failAt plen).2 = true ↔ failAt = none) := by
  cases failAt with
  | none =>
    refine ⟨?_, ?_, ?_, ?_⟩
    · intro h
      simp [write_file_atomic] at h
    · intro _
      constructor
      · show setFile (removeFile (setFile fs tmp bytes) tmp) fp bytes fp = some bytes
        simp [setFile]
      · intro q hq
        show setFile (removeFile (setFile fs tmp bytes) tmp) fp bytes q = fs q
        rw [removeFile_setFile_self fs tmp bytes hfresh]
        simp [setFile, hq]
    · right
      show setFile (removeFile (setFile fs tmp bytes) tmp) fp bytes fp = some bytes
      simp [setFile]
    · simp [write_file_atomic]
  | some step =>
    cases step with
    | mkstemp =>
      refine ⟨fun _ => rfl, ?_, Or.inl rfl, ?_⟩
      · intro h
        simp [write_file_atomic] at h
      · simp [write_file_atomic]
    | writeTemp =>
      refine ⟨?_, ?_, ?_, ?_⟩
      · intro _
        exact removeFile_setFile_self fs tmp (bytes.take plen) hfresh
      · intro h
        simp [write_file_atomic] at h
      · left
        rw [show (write_file_atomic fs tmp fp bytes (some .writeTemp) plen).1 =
          removeFile (setFile fs tmp (bytes.take plen)) tmp from rfl]
        rw [removeFile_setFile_self fs tmp (bytes.take plen) hfresh]
      · simp [write_file_atomic]
    | replace =>
      refine ⟨?_, ?_, ?_, ?_⟩
      · intro _
        exact removeFile_setFile_self fs tmp bytes hfresh
      · intro h
        simp [write_file_atomic] at h
      · left
        rw [show (write_file_atomic fs tmp fp bytes (some .replace) plen).1 =
          removeFile (setFile fs tmp bytes) tmp from rfl]
        rw [removeFile_setFile_self fs tmp bytes hfresh]
      · simp [write_file_atomic]

/-- Concrete instance of the C7 theorem: a failure during the replace step
leaves the one-file system untouched. -/
theorem write_file_atomic_old_or_new_witness :
    ((fun p => if p = "n.md" then some [104] else none : FS) ".n.md_.tmp" = none) ∧
    (".n.md_.tmp" ≠ "n.md") ∧
    ((write_file_atomic (fun p => if p = "n.md" then some [104] else none)
        ".n.md_.tmp" "n.md" [35] (some .replace) 0).2 = false →
      (write_file_atomic (fun p => if p = "n.md" then some [104] else none)
        ".n.md_.tmp" "n.md" [35] (some .replace) 0).1 =
        (fun p => if p = "n.md" then some [104] else none)) :=
  ⟨by decide, by decide,
   (write_file_atomic_old_or_new (fun p => if p = "n.md" then some [104] else none)
     ".n.md_.tmp" "n.md" [35] (some .replace) 0 (by decide) (by decide)).1⟩

/-- C8: the exit code of main is 0 exactly when the root path existed, was a
directory, and the run produced no per-file error; otherwise it is 1, and an
invalid root is rejected before any file is touched.  The formula consults
neither the conversion counts nor the write flag. -/
theorem main_exit_code_spec (re rd : Bool) (fs : FS) (vp now : String)
    (files : List String) (w bk nb : Bool) :
    (main re rd fs vp now files w bk nb).2 =
      (if re = true ∧ rd = true ∧
          (run_conversion fs files vp now (!w) (bk && !nb)).2.errors = []
        then 0 else 1) ∧
    (¬(re = true ∧ rd = true) → (main re rd fs vp now files w bk nb).1 = fs) := by
  cases re with
  | false => simp [main]
  | true =>
    cases rd with
    | false => simp [main]
    | true =>
      refine ⟨?_, fun h => absurd ⟨rfl, rfl⟩ h⟩
      simp only [main]
      cases h : (run_conversion fs files vp now (!w) (bk && !nb)).2.errors with
      | nil => simp [h]
      | cons a as => simp [h]

/-- Concrete instance of the C8 theorem at a nonexistent root. -/
theorem main_exit_code_spec_witness :
    (main false true (fun _ => none) "v" "t" [] false true false).2 =
      (if false = true ∧ true = true ∧
          (run_conversion (fun _ => none) [] "v" "t" (!false) (true && !false)).2.errors = []
        then 0 else 1) ∧
    (main false true (fun _ => none) "v" "t" [] false true false).1 =
      (fun _ => none) :=
  ⟨(main_exit_code_spec false true (fun _ => none) "v" "t" [] false true false).1,
   (main_exit_code_spec false true (fun _ => none) "v" "t" [] false true false).2
     (by decide)⟩

theorem process_all_length : ∀ (files : List String) (fs : FS)
    (vr now : String) (dr cb : Bool),
    (process_all fs files vr now dr cb).2.length = files.length := by
  intro files
  induction files with
  | nil => intro fs vr now dr cb; rfl
  | cons p ps ih =>
    intro fs vr now dr cb
    simp [process_all, ih]

/-- C9: the decode loop tries utf-8, then utf-8-sig, then latin-1, accepting
the first that succeeds; a file that cannot be opened is recorded as a
per-file error without touching the file system; the write re-encodes the new
content with the same encoding that decoded the file; and the per-file loop
attempts every file, producing one result per file regardless of errors. -/
theorem decode_priority_spec (bytes : List Nat) (fs : FS) (fp vr now : String)
    (dr cb : Bool) :
    (∀ s, utf8DecodeAux bytes = some s →
      decodeFirst encodings bytes = some (.utf8, s)) ∧
    (utf8DecodeAux bytes = none → ∀ s, utf8SigDecode bytes = some s →
      decodeFirst encodings bytes = some (.utf8sig, s)) ∧
    (utf8DecodeAux bytes = none → utf8SigDecode bytes = none →
      decodeFirst encodings bytes = some (.latin1, bytes.map Char.ofNat)) ∧
    (fs fp = none →
      process_file fs fp vr now dr cb = (fs, ⟨fp, 0, false, some readErrorMsg⟩)) ∧
    (∀ enc decoded out, fs fp = some bytes →
      decodeFirst encodings bytes = some (enc, decoded) →
      (convert_h1_to_h2 (String.mk (universalNewlines decoded))).2 ≠ 0 →
      encodeBytes enc
        (convert_h1_to_h2 (String.mk (universalNewlines decoded))).1.data = some out →
      (process_file fs fp vr now false cb).1 fp = some out) ∧
    (∀ files, (process_all fs files vr now dr cb).2.length = files.length) := by
  refine ⟨?_, ?_, ?_, ?_, ?_, ?_⟩
  · intro s h
    simp [decodeFirst, encodings, decodeBytes, h]
  · intro h s h2
    simp [decodeFirst, encodings, decodeBytes, h, h2]
  · intro h1 h2
    simp [decodeFirst, encodings, decodeBytes, h1, h2, latin1Decode]
  · intro h
    simp [process_file, h]
  · intro enc decoded out h1 h2 h3 h4
    simp only [process_file, h1, h2]
    rw [if_neg h3]
    simp only [Bool.false_eq_true, if_false, h4]
    simp [write_file_atomic, setFile]
  · intro files
    exact process_all_length files fs vr now dr cb

/-- Concrete instance of the C9 theorem: a plain ASCII heading file decodes
as utf-8 and the write stores its utf-8 re-encoding. -/
theorem decode_priority_spec_witness :
    utf8DecodeAux [35, 32, 97] = some ['#', ' ', 'a'] ∧
    decodeFirst encodings [35, 32, 97] = some (.utf8, ['#', ' ', 'a']) ∧
    (process_file (fun p => if p = "a.md" then some [35, 32, 97] else none)
      "a.md" "v" "t" false true).1 "a.md" = some [35, 35, 32, 97] :=
  ⟨by decide,
   (decode_priority_spec [35, 32, 97]
     (fun p => if p = "a.md" then some [35, 32, 97] else none)
     "a.md" "v" "t" false true).1 ['#', ' ', 'a'] (by decide),
   (decode_priority_spec [35, 32, 97]
     (fun p => if p = "a.md" then some [35, 32, 97] else none)
     "a.md" "v" "t" false true).2.2.2.2.1 .utf8 ['#', ' ', 'a'] [35, 35, 32, 97]
     (by decide) (by decide) (by decide) (by decide)⟩

/-- C10: the latin-1 fallback decodes every byte sequence, so the decode loop
always succeeds and process_file can never return the undecodable-file error
message. -/
theorem latin1_fallback_unreachable_error (bytes : List Nat) (fs : FS)
    (fp vr now : String) (dr cb : Bool) :
    (decodeFirst encodings bytes).isSome = true ∧
    (process_file fs fp vr now dr cb).2.error ≠ some decodeErrorMsg := by
  have htotal : ∀ bs : List Nat, (decodeFirst encodings bs).isSome = true := by
    intro bs
    cases h1 : utf8DecodeAux bs with
    | some s => simp [decodeFirst, encodings, decodeBytes, h1]
    | none =>
      cases h2 : utf8SigDecode bs with
      | some s => simp [decodeFirst, encodings, decodeBytes, h1, h2]
      | none => simp [decodeFirst, encodings, decodeBytes, h1, h2, latin1Decode]
  refine ⟨htotal bytes, ?_⟩
  cases hr : fs fp with
  | none =>
    simp only [process_file, hr]
    decide
  | some bytes' =>
    cases hd : decodeFirst encodings bytes' with
    | none =>
      have h := htotal bytes'
      rw [hd] at h
      simp at h
    | some p =>
      obtain ⟨enc, decoded⟩ := p
      simp only [process_file, hr, hd]
      by_cases hz : (convert_h1_to_h2 (String.mk (universalNewlines decoded))).2 = 0
      · simp [hz]
      · rw [if_neg hz]
        cases dr with
        | true => simp
        | false =>
          simp only [Bool.false_eq_true, if_false]
          cases he : encodeBytes enc
              (convert_h1_to_h2 (String.mk (universalNewlines decoded))).1.data with
          | none =>
            simp only [he]
            decide
          | some out => simp [he]

/-- Concrete instance of the C10 theorem on a byte that no UTF-8 form
accepts. -/
theorem latin1_fallback_unreachable_error_witness :
    (decodeFirst encodings [0xff]).isSome = true ∧
    (process_file (fun _ => none) "x.md" "v" "t" true true).2.error ≠
      some decodeErrorMsg :=
  latin1_fallback_unreachable_error [0xff] (fun _ => none) "x.md" "v" "t" true true

end ConvertH1
